import Mathlib

/-!
Verification development for `mongoose-references-integrity-checker`
(`src/index.js`).

The development shallowly embeds the three parts of the plugin:

* the reference-graph compiler (`plugin` / its inner `eachPath`), which walks a
  schema description and registers reference descriptors in the global `refs`
  registry keyed by target model name;
* the update-path builder (`getFindQueryObjectFor` / `getUpdateQueryObjectFor`),
  which synthesizes the Mongo selector and the nullification mutation;
* the deletion policy engine (`onDelete`, `onDeleteBlock`, `onDeleteCascade`,
  `onDeleteSetNull` and the pre-delete / pre-soft-delete hooks).

Conventions of the embedding:

* Mongo/Mongoose dotted path strings are represented by their lists of
  dot-separated segments (`List String`); the positional markers that the source
  splices into the update path as `"$[]."` / `"$[j]."` appear as the segments
  `"$[]"` / `"$[j]"`.  Joining a segment list with `"."` recovers the exact
  string the JavaScript builds.
* Document ids (`ObjectId`s) are `Nat`.
* JavaScript objects used as string-keyed maps (the global `refs` registry, the
  collections of the store) are association lists updated in place.
* Schema types are classified, as in the source, by their constructor name:
  `SchemaArray` (array of primitives), `DocumentArrayPath` (array of
  subdocuments), `SingleNestedPath` / plain nesting (nested object), or a
  primitive path.  A schema is a chain of named fields (`subCons`/`subNil`).
-/

/-- The per-field options the plugin reads: `options.ref` (target model name,
when the field is a reference). The `required` / `cascade` flags are read from
the live schema object at deletion time, not from this compile-time record, so
they are deliberately not part of it (see `Flags` below). -/
structure RefOpts where
  ref : Option String
deriving DecidableEq, Repr

/-- A mongoose schema type, classified as the source classifies it by
`constructor.name`.  Field chains (`subNil`/`subCons`) represent the sub-schema
of a nested object / document array, and also the top level schema itself. -/
inductive SchemaTy where
  /-- a primitive path (possibly carrying a `ref` option) -/
  | prim (opts : RefOpts)
  /-- `SchemaArray`: an array of primitives; `elem` is `options.type[0]`,
  `topRef` is the array schema type's own top-level `options.ref` (normally
  absent) -/
  | arrayPrim (elem : RefOpts) (topRef : Option String)
  /-- `DocumentArrayPath`: an array of subdocuments with sub-schema `sub` -/
  | docArray (sub : SchemaTy)
  /-- `SingleNestedPath` or a plain nested object, with sub-schema `sub` -/
  | singleNested (sub : SchemaTy)
  /-- empty field chain -/
  | subNil
  /-- field chain cell: field `name` has type `ty`, then `rest` -/
  | subCons (name : String) (ty : SchemaTy) (rest : SchemaTy)
deriving DecidableEq, Repr

namespace SchemaTy

/-- Find a field by name in a field chain (`undefined` when absent). -/
def findField : SchemaTy → String → Option SchemaTy
  | subCons name ty rest, k => if name = k then some ty else findField rest k
  | _, _ => none

end SchemaTy

/-- `schema.path(p)` on a dotted path, here given as its segment list: resolve
segment by segment, descending through document arrays and nested objects
(mongoose resolves subpaths through their sub-schemas the same way). -/
def schemaPath : SchemaTy → List String → Option SchemaTy
  | s, [k] => s.findField k
  | s, k :: rest => match s.findField k with
      | some (.docArray sub) => schemaPath sub rest
      | some (.singleNested sub) => schemaPath sub rest
      | _ => none
  | _, [] => none

/-- `schemaType && schemaType.constructor.name === 'DocumentArrayPath'`. -/
def isDocArray : Option SchemaTy → Bool
  | some (.docArray _) => true
  | _ => false

/-- `fieldRefSchemaType.constructor.name === 'SchemaArray'`. -/
def isSchemaArray : Option SchemaTy → Bool
  | some (.arrayPrim _ _) => true
  | _ => false

/-- A reference descriptor as the compiler stores it in `refs`: the source
model name and the path of the reference field (the source also stores the
live `schemaType` object; its mutable `required`/`cascade` flags are modelled
by the `Flags` state read at deletion time, keyed by this same pair). -/
structure RefDesc where
  modelName : String
  path : List String
deriving DecidableEq, Repr

/-- The global `refs` registry: a JavaScript object mapping target model name
to the array of descriptors referencing it. -/
abbrev Registry := List (String × List RefDesc)

/-- Property read `refs[k]` (`undefined` when the key is absent). -/
def regGet : Registry → String → Option (List RefDesc)
  | [], _ => none
  | (k', v) :: rest, k => if k' = k then some v else regGet rest k

/-- Property write `refs[k] = v` (updates in place, else appends the key). -/
def regSet : Registry → String → List RefDesc → Registry
  | [], k, v => [(k, v)]
  | (k', v') :: rest, k, v =>
      if k' = k then (k, v) :: rest else (k', v') :: regSet rest k v

/-- `refs[k] || []`. -/
def regGetD (r : Registry) (k : String) : List RefDesc :=
  (regGet r k).getD []

/-- The inner `eachPath` function of `plugin` (src/index.js lines 75-99),
walking one schema node (and, for the chain constructors, a whole field
chain with the accumulated parent path):

* `SchemaArray` whose `options.type[0].ref` is set: register the descriptor
  under `options.type[0].ref`, but seeded from `refs[schemaType.options.ref]`
  (the array's own top-level ref option, normally absent — an absent key reads
  as the string key `"undefined"` in JavaScript);
* a schema-bearing type (`DocumentArrayPath` / `SingleNestedPath`): recurse
  into the sub-schema with the accumulated path;
* otherwise, a field with `options.ref`: append the descriptor under that
  target (this is also where a `SchemaArray` without an element ref but with a
  top-level `options.ref` lands, since it has no `.schema`). -/
def eachPath (modelName : String) (path : List String) :
    SchemaTy → Registry → Registry
  | .arrayPrim elem topRef, r =>
      match elem.ref with
      | some tgt =>
          regSet r tgt (regGetD r (topRef.getD "undefined") ++
            [{ modelName := modelName, path := path }])
      | none =>
          match topRef with
          | some tgt =>
              regSet r tgt (regGetD r tgt ++
                [{ modelName := modelName, path := path }])
          | none => r
  | .docArray sub, r => eachPath modelName path sub r
  | .singleNested sub, r => eachPath modelName path sub r
  | .prim opts, r =>
      match opts.ref with
      | some tgt =>
          regSet r tgt (regGetD r tgt ++
            [{ modelName := modelName, path := path }])
      | none => r
  | .subNil, r => r
  | .subCons name ty rest, r =>
      eachPath modelName path rest (eachPath modelName (path ++ [name]) ty r)

/-- `plugin(modelName, schema)`'s registry effect (src/index.js lines 72-102):
initialise the model's own key when absent (`if (!refs[modelName])` — an empty
array is truthy, only an absent key triggers this), then walk every path of
the schema. -/
def plugin (modelName : String) (schema : SchemaTy) (r : Registry) : Registry :=
  let r' := match regGet r modelName with
    | some _ => r
    | none => regSet r modelName []
  eachPath modelName [] schema r'


/-- The `House` schema of the test suite: no fields. -/
def houseSchema : SchemaTy := .subNil

/-- The `Room` schema of the test suite: `house: { ref: 'House', ... }`. -/
def roomSchema : SchemaTy :=
  .subCons "house" (.prim { ref := some "House" }) .subNil

/-! ## Document values and Mongo selector matching -/

/-- A BSON document value: a reference id, `null`, an object (chain of named
fields) or an array (chain of elements).  The chains are inlined into the one
inductive so that all functions are plain structural recursions. -/
inductive DocVal where
  | vid (i : Nat)
  | vnull
  | objNil
  | objCons (name : String) (v : DocVal) (rest : DocVal)
  | arrNil
  | arrCons (v : DocVal) (rest : DocVal)
deriving DecidableEq, Repr

/-- `getFindQueryObjectFor(modelRef, pathRef, referencedId)` — the selector
`{ [pathRef]: referencedId }`, as (path segments, id). -/
def getFindQueryObjectFor (pathRef : List String) (referencedId : Nat) :
    List String × Nat :=
  (pathRef, referencedId)

/-- Mongo semantics of the selector `{ path: id }` on a document value:
equality at the end of the path, an array at the end of the path matches when
it contains the id, and intermediate arrays match element-wise. -/
def vmatch : DocVal → List String → Nat → Bool
  | .vid j, [], i => j == i
  | .arrCons v rest, [], i => vmatch v [] i || vmatch rest [] i
  | .objCons name v restF, k :: rest, i =>
      if name = k then vmatch v rest i else vmatch restF (k :: rest) i
  | .arrCons v restE, k :: rest, i =>
      vmatch v (k :: rest) i || vmatch restE (k :: rest) i
  | _, _, _ => false

/-! ## The update-path builder (`getUpdateQueryObjectFor`) -/

/-- The result of `getUpdateQueryObjectFor`: the update document
`{ [operator]: { [updatePath]: value } }` together with the optional
`{ arrayFilters: [{ [filterPath]: referencedId }] }` options object.
`value = none` renders the JavaScript `null` of the `$set` branch. -/
structure UpdateInstr where
  op : String
  updatePath : List String
  value : Option Nat
  arrayFilters : Option (List String × Nat)
deriving DecidableEq, Repr

/-- The `info` array of the builder's first loop: for each `i < path.length-1`,
whether `model.schema.path(path[0..i])` is a `DocumentArrayPath`. -/
def updateInfo (schema : SchemaTy) (path : List String) : List Bool :=
  (List.range (path.length - 1)).map
    (fun i => isDocArray (schemaPath schema (path.take (i + 1))))

/-- `lastDocumentArray`: assigned on every array prefix in ascending loop
order, hence the largest array index when one exists, else `null`. -/
def updateLastDA (schema : SchemaTy) (path : List String) : Option Nat :=
  (List.range (path.length - 1)).foldl
    (fun acc i => if (updateInfo schema path).getD i false then some i else acc) none

/-- The built `updatePath`, as its dot-separated segments: the second loop
appends each `path[i]` followed by `'$[j].'` on the last document array,
`'$[].'` on the other document arrays, and nothing otherwise; then the final
path segment is appended. -/
def updateSegs (schema : SchemaTy) (path : List String) : List String :=
  (List.range (path.length - 1)).foldl (fun s i =>
    s ++ [path.getD i ""] ++
      (if (updateInfo schema path).getD i false then
        [if updateLastDA schema path = some i then "$[j]" else "$[]"]
      else [])) []
  ++ [path.getD (path.length - 1) ""]

/-- The built `arrayFilterConditionPath`, as segments: the path segments
strictly after `lastDocumentArray`, ending with the final path segment. -/
def updateCondSegs (schema : SchemaTy) (path : List String) : List String :=
  (List.range (path.length - 1)).foldl (fun s i =>
    match updateLastDA schema path with
    | some l => if l < i then s ++ [path.getD i ""] else s
    | none => s) []
  ++ [path.getD (path.length - 1) ""]

/-- `getUpdateQueryObjectFor(modelRef, pathRef, referencedId)`
(src/index.js lines 12-70), assembled from the loops above: the operator is
`$pull` of the id when the terminal schema type (`model.schema.path(pathRef)`)
is a `SchemaArray`, else `$set` to `null`; the `arrayFilters` option is
attached iff some document array prefix was found. -/
def getUpdateQueryObjectFor (schema : SchemaTy) (path : List String)
    (referencedId : Nat) : UpdateInstr :=
  let fieldRefSchemaType := schemaPath schema path
  let operator := if isSchemaArray fieldRefSchemaType then "$pull" else "$set"
  { op := operator
    updatePath := updateSegs schema path
    value := if operator = "$pull" then some referencedId else none
    arrayFilters :=
      match updateLastDA schema path with
      | some _ => some ("j" :: updateCondSegs schema path, referencedId)
      | none => none }

/-- `$pull`'s effect on an array value: remove the elements equal to the id. -/
def pullId (rid : Nat) : DocVal → DocVal
  | .arrCons v rest =>
      match v with
      | .vid j => if j == rid then pullId rid rest else .arrCons (.vid j) (pullId rid rest)
      | _ => .arrCons v (pullId rid rest)
  | v => v

/-- Mongo semantics of applying the built mutation to a document value:
navigate the update path, mapping `"$[]"` over every array element, mapping
`"$[j]"` over the elements satisfying the array-filter condition `cond`
(the path bound to the identifier `j`), and at the terminal field either
`$pull` the id from the array or `$set` the field to `null`.  Positions the
built instructions never produce (a marker over a non-array, a missing field)
leave the value unchanged. -/
def applyU (op : String) (rid : Nat) (cond : List String) :
    List String → DocVal → DocVal
  | segs, .objCons name v rest =>
      match segs with
      | [] => .objCons name v rest
      | [k] =>
          if name = k then
            (if op = "$pull" then .objCons name (pullId rid v) rest
             else .objCons name .vnull rest)
          else .objCons name v (applyU op rid cond [k] rest)
      | k :: k2 :: ks =>
          if name = k then .objCons name (applyU op rid cond (k2 :: ks) v) rest
          else .objCons name v (applyU op rid cond (k :: k2 :: ks) rest)
  | segs, .arrCons v rest =>
      match segs with
      | "$[]" :: ks =>
          .arrCons (applyU op rid cond ks v) (applyU op rid cond ("$[]" :: ks) rest)
      | "$[j]" :: ks =>
          .arrCons (if vmatch v cond rid then applyU op rid cond ks v else v)
            (applyU op rid cond ("$[j]" :: ks) rest)
      | _ => .arrCons v rest
  | _, v => v

/-- Apply a built `UpdateInstr` to one document value. -/
def applyInstr (instr : UpdateInstr) (referencedId : Nat) (v : DocVal) : DocVal :=
  let cond := match instr.arrayFilters with
    | some (f, _) => f.drop 1
    | none => []
  applyU instr.op referencedId cond instr.updatePath v


/-- Test schema `Room { houses: [ref House] }` (array of bare references). -/
def roomArraySchema : SchemaTy :=
  .subCons "houses" (.arrayPrim { ref := some "House" } none) .subNil

/-- Test schema `Room { houses: [{ house: ref House }] }` (array of objects). -/
def roomArrayObjectsSchema : SchemaTy :=
  .subCons "houses"
    (.docArray (.subCons "house" (.prim { ref := some "House" }) .subNil)) .subNil

/-- Test schema `Room { houses: [{ house: { houses: [{ house: ref }] } }] }`
(nested arrays). -/
def roomNestedArraysSchema : SchemaTy :=
  .subCons "houses"
    (.docArray (.subCons "house"
      (.singleNested (.subCons "houses"
        (.docArray (.subCons "house" (.prim { ref := some "House" }) .subNil))
        .subNil))
      .subNil))
    .subNil


/-! ## The store and the deletion policy engine -/

/-- A stored document: its `_id`, its soft-delete flag and its field values. -/
structure Doc where
  _id : Nat
  _deleted : Bool
  body : DocVal
deriving DecidableEq, Repr

/-- The document store: collection (list of documents, in insertion order)
per model name. -/
abbrev Store := List (String × List Doc)

/-- Read a model's collection (an unknown model reads as empty). -/
def storeGet : Store → String → List Doc
  | [], _ => []
  | (k', v) :: rest, k => if k' = k then v else storeGet rest k

/-- Replace a model's collection (updates in place, else appends the model). -/
def storeSet : Store → String → List Doc → Store
  | [], k, v => [(k, v)]
  | (k', v') :: rest, k, v =>
      if k' = k then (k, v) :: rest else (k', v') :: storeSet rest k v

/-- Save one document into its model's collection (replace by `_id`, else
append). -/
def storeSetDoc (st : Store) (m : String) (d : Doc) : Store :=
  let docs := storeGet st m
  if docs.any (fun d0 => d0._id == d._id) then
    storeSet st m (docs.map (fun d0 => if d0._id == d._id then d else d0))
  else
    storeSet st m (docs ++ [d])

/-- `Model.find(queryObject)`: every document matching the selector. -/
def findDocs (st : Store) (modelRef : String) (pathRef : List String)
    (referencedId : Nat) : List Doc :=
  (storeGet st modelRef).filter (fun d => vmatch d.body pathRef referencedId)

/-- `Model.findOne(queryObject)`: the first document matching the selector. -/
def findOneDoc (st : Store) (modelRef : String) (pathRef : List String)
    (referencedId : Nat) : Option Doc :=
  (storeGet st modelRef).find? (fun d => vmatch d.body pathRef referencedId)

/-- `Model.updateMany(findQuery, updateQuery, options)`: apply the mutation to
every document matching the selector, in one bulk operation. -/
def updateMany (st : Store) (modelRef : String) (pathRef : List String)
    (referencedId : Nat) (instr : UpdateInstr) : Store :=
  storeSet st modelRef
    ((storeGet st modelRef).map (fun d =>
      if vmatch d.body pathRef referencedId then
        { d with body := applyInstr instr referencedId d.body }
      else d))

/-- The store-level effect of the delete that follows a successful pre-hook:
`doc.deleteOne()` / `Model.deleteOne({_id})` removes the identified document;
with no `_id` at hand, `Model.deleteOne({})` removes the first document of the
collection (the document store collaborator's semantics). -/
def removeDoc (st : Store) (modelName : String) : Option Nat → Store
  | some i => storeSet st modelName
      ((storeGet st modelName).filter (fun d => !(d._id == i)))
  | none => storeSet st modelName ((storeGet st modelName).drop 1)

/-- The `RefConstraintError` raised by `onDeleteBlock`, with the fields the
source constructs it with: the deleted model's name (the plugin closure's
`modelName`), the blocking source model `modelRef`, the path `pathRef`, and
the blocking document's id `whoIsBlocking`. -/
structure RefConstraintError where
  modelName : String
  modelRef : String
  pathRef : List String
  whoIsBlocking : Nat
deriving DecidableEq, Repr

/-- An engine outcome: a `RefConstraintError` thrown by a Block descriptor, or
exhaustion of the recursion fuel of the embedding (cascades recurse through
the store, which a shallow embedding bounds by fuel; no claim is settled on a
fuel-exhausted run). -/
inductive EngineErr where
  | refConstraint (e : RefConstraintError)
  | outOfFuel
deriving DecidableEq, Repr

/-- `softDeleteOptions`: absent for a hard delete (both fields default
`false`), `{softDelete: true, _deleted: target}` for a soft-delete
transition. -/
structure SoftOpts where
  softDelete : Bool := false
  _deleted : Bool := false
deriving DecidableEq, Repr

/-- The `required` / `cascade` flags of one reference field, as read from the
live schema type object at deletion time: `schemaType.required`,
`schemaType.cascade` and `schemaType.options && schemaType.options.cascade`. -/
structure Flags where
  required : Bool
  cascade : Bool
  optionsCascade : Bool
deriving DecidableEq, Repr

/-- The engine's environment for one deletion call: the compiled registry, the
registered schemas (for `mongoose.model(modelRef).schema`), and the live
per-field flags, keyed by (source model, path) — the identity of the mutable
schema type object each descriptor holds. -/
structure Env where
  reg : Registry
  schemas : List (String × SchemaTy)
  flags : List ((String × List String) × Flags)
deriving DecidableEq, Repr

/-- `mongoose.model(m).schema` lookup. -/
def schemasGet : List (String × SchemaTy) → String → SchemaTy
  | [], _ => .subNil
  | (k', v) :: rest, k => if k' = k then v else schemasGet rest k

/-- Read a descriptor's live flags at call time. -/
def flagsAt (env : Env) (d : RefDesc) : Flags :=
  match env.flags.find? (fun p => p.1 = (d.modelName, d.path)) with
  | some p => p.2
  | none => { required := false, cascade := false, optionsCascade := false }

/-- `onDeleteSetNull(modelRef, pathRef, documentId, {softDelete, _deleted})`
(src/index.js lines 104-118): on a hard delete, one bulk `updateMany` with the
built selector and mutation; on any soft-delete transition, nothing. -/
def onDeleteSetNull (env : Env) (modelRef : String) (pathRef : List String)
    (documentId : Nat) (opts : SoftOpts) (st : Store) : Store :=
  if !opts.softDelete then
    updateMany st modelRef pathRef documentId
      (getUpdateQueryObjectFor (schemasGet env.schemas modelRef) pathRef documentId)
  else st

/-- `onDeleteBlock(modelRef, pathRef, documentId, {softDelete, _deleted})`
(src/index.js lines 137-156): enforced when `!softDelete || _deleted`; throws
`RefConstraintError` with the first document matching the selector, if any.
It never mutates the store, so only the optional error is returned. -/
def onDeleteBlock (modelName modelRef : String) (pathRef : List String)
    (documentId : Nat) (opts : SoftOpts) (st : Store) :
    Option RefConstraintError :=
  if !opts.softDelete || opts._deleted then
    match findOneDoc st modelRef pathRef documentId with
    | some d =>
        some { modelName := modelName, modelRef := modelRef, pathRef := pathRef,
               whoIsBlocking := d._id }
    | none => none
  else none

/-- The engine's entry points, as one call type:

* `onDel`: the inner `onDelete(documentId, softDeleteOptions)` of the plugin
  registered for `modelName`;
* `cascade`: `onDeleteCascade(modelRef, pathRef, documentId, opts)`;
* `delOne`: the `pre('remove')` / `pre('deleteOne')` hook (the two hook bodies
  are identical, src/index.js lines 173-183) followed by the delete itself;
  `thisId` is `this._id`, `condsId` is `this._conditions._id`;
* `softDel`: `doc.softDelete(target)` — the soft-delete capability's
  two-phase transition around the registered `preSoftDelete` hook
  (src/index.js lines 185-199). -/
inductive Call where
  | onDel (modelName : String) (documentId : Nat) (opts : SoftOpts)
  | cascade (modelRef : String) (pathRef : List String) (documentId : Nat)
      (opts : SoftOpts)
  | delOne (modelName : String) (thisId : Option Nat) (condsId : Option Nat)
  | softDel (modelName : String) (documentId : Nat) (target : Bool)
deriving DecidableEq, Repr

/-- Continuation of the `pre('remove')` / `pre('deleteOne')` hook: a hook
error aborts the delete (the store keeps the hook's earlier side effects);
otherwise the delete itself runs. -/
def afterHook (modelName : String) (oid : Option Nat) :
    Store × Option EngineErr → Store × Option EngineErr
  | (st1, some e) => (st1, some e)
  | (st1, none) => (removeDoc st1 modelName oid, none)

/-- Continuation of the pre-soft-delete hook: an error aborts the commit;
otherwise the document with its flipped flag is saved. -/
def afterSoftHook (modelName : String) (doc : Doc) (target : Bool) :
    Store × Option EngineErr → Store × Option EngineErr
  | (st1, some e) => (st1, some e)
  | (st1, none) =>
      (storeSetDoc st1 modelName { doc with _deleted := target }, none)

/-- The deletion policy engine.  Fuel bounds the cascade recursion; every
recursive call runs at one unit less.  Results pair the store after the call's
side effects with the optional error: a thrown error propagates immediately
and aborts the remaining work, but the side effects already applied to the
store persist (the source performs no store-level rollback).

`onDel` (src/index.js lines 158-171) iterates `refs[modelName]` left to right
and dispatches on the flags read from the live schema type at this moment:
required and cascading — `onDeleteCascade`; required only — `onDeleteBlock`;
not required — `onDeleteSetNull`.

`cascade` (lines 120-135) finds the referencing documents and re-invokes each
document's own deletion entry point — `softDelete` with the same target state,
or `deleteOne` — so the children's own references are policy-checked in turn
(the source issues these with `Promise.all`; each awaited deletion is an
atomic store step, rendered here in list order).

`delOne` (lines 173-183) runs `onDelete` on `this._id || this._conditions._id`
when that id is present, then performs the delete; a hook error aborts the
delete.

`softDel` is the soft-delete capability modelled from the spec (see
`softDeleteDoc` below), inlined here so the recursion stays structural. -/
def run (env : Env) : Nat → Call → Store → Store × Option EngineErr
  | 0, _, st => (st, some .outOfFuel)
  | fuel + 1, c, st =>
    match c with
    | .onDel modelName documentId opts =>
        (regGetD env.reg modelName).foldl (fun acc d =>
          match acc with
          | (st1, some e) => (st1, some e)
          | (st1, none) =>
            let f := flagsAt env d
            if f.required then
              if f.cascade || f.optionsCascade then
                run env fuel (.cascade d.modelName d.path documentId opts) st1
              else
                match onDeleteBlock modelName d.modelName d.path documentId opts st1 with
                | some e => (st1, some (.refConstraint e))
                | none => (st1, none)
            else (onDeleteSetNull env d.modelName d.path documentId opts st1, none))
          (st, none)
    | .cascade modelRef pathRef documentId opts =>
        (findDocs st modelRef pathRef documentId).foldl (fun acc doc =>
          match acc with
          | (st1, some e) => (st1, some e)
          | (st1, none) =>
            if opts.softDelete then
              run env fuel (.softDel modelRef doc._id opts._deleted) st1
            else
              run env fuel (.delOne modelRef (some doc._id) none) st1)
          (st, none)
    | .delOne modelName thisId condsId =>
        match thisId.orElse (fun _ => condsId) with
        | some i =>
            afterHook modelName (some i)
              (run env fuel (.onDel modelName i {}) st)
        | none => afterHook modelName none (st, none)
    | .softDel modelName documentId target =>
        match (storeGet st modelName).find? (fun d => d._id == documentId) with
        | none => (st, none)
        | some doc =>
            afterSoftHook modelName doc target
              (run env fuel (.onDel modelName documentId
                { softDelete := true, _deleted := target }) st)

/-- The per-descriptor step of `onDelete`'s loop, named so the theorems can
speak about one descriptor's evaluation; `run` folds exactly this function
over `refs[modelName]` (see `run_onDel_eq`).  An accumulated error models the
loop having been exited by the throw: nothing further is evaluated. -/
def descStep (env : Env) (fuel : Nat) (modelName : String) (documentId : Nat)
    (opts : SoftOpts) (acc : Store × Option EngineErr) (d : RefDesc) :
    Store × Option EngineErr :=
  match acc with
  | (st1, some e) => (st1, some e)
  | (st1, none) =>
    let f := flagsAt env d
    if f.required then
      if f.cascade || f.optionsCascade then
        run env fuel (.cascade d.modelName d.path documentId opts) st1
      else
        match onDeleteBlock modelName d.modelName d.path documentId opts st1 with
        | some e => (st1, some (.refConstraint e))
        | none => (st1, none)
    else (onDeleteSetNull env d.modelName d.path documentId opts st1, none)

def softDeleteDoc (env : Env) (fuel : Nat) (modelName : String)
    (documentId : Nat) (target : Bool) (st : Store) :
    Store × Option Doc × Option EngineErr :=
  match (storeGet st modelName).find? (fun d => d._id == documentId) with
  | none => (st, none, none)
  | some doc0 =>
    let doc := { doc0 with _deleted := target }
    match run env fuel (.onDel modelName documentId
        { softDelete := true, _deleted := target }) st with
    | (st1, some (.refConstraint e)) =>
        (st1, some { doc with _deleted := false }, some (.refConstraint e))
    | (st1, some .outOfFuel) => (st1, some doc, some .outOfFuel)
    | (st1, none) =>
        (storeSetDoc st1 modelName doc, some doc, none)


/-- The House/Room environment with `Room.house` declared
`required: true, cascade: false` at call time. -/
def envBlock : Env :=
  { reg := plugin "Room" roomSchema (plugin "House" houseSchema [])
    schemas := [("House", houseSchema), ("Room", roomSchema)]
    flags := [(("Room", ["house"]),
      { required := true, cascade := false, optionsCascade := false })] }

/-- Same registry and schemas, but `Room.house` re-declared
`required: false` (a live flag toggle, no recompilation). -/
def envNullify : Env :=
  { envBlock with flags := [(("Room", ["house"]),
      { required := false, cascade := false, optionsCascade := false })] }

/-- Same registry and schemas, but `Room.house` re-declared
`required: true, cascade: true`. -/
def envCascade : Env :=
  { envBlock with flags := [(("Room", ["house"]),
      { required := true, cascade := true, optionsCascade := false })] }

/-- House `H` (id 1) and room `R` (id 2) with `R.house = H`. -/
def st0 : Store :=
  [("House", [{ _id := 1, _deleted := false, body := .objNil }]),
   ("Room", [{ _id := 2, _deleted := false,
               body := .objCons "house" (.vid 1) .objNil }])]

/-- The same pair, with two rooms, everything soft-deleted. -/
def stSoft : Store :=
  [("House", [{ _id := 1, _deleted := true, body := .objNil }]),
   ("Room", [{ _id := 2, _deleted := true,
               body := .objCons "house" (.vid 1) .objNil },
             { _id := 3, _deleted := true,
               body := .objCons "house" (.vid 1) .objNil }])]


/-- A schema with no array-of-bare-references field (no `SchemaArray` whose
`options.type[0].ref` is set): on such schemas every registry write of
`eachPath` is an append to the written key. -/
def noBareArrayRef : SchemaTy → Bool
  | .prim _ => true
  | .arrayPrim elem _ => elem.ref.isNone
  | .docArray sub => noBareArrayRef sub
  | .singleNested sub => noBareArrayRef sub
  | .subNil => true
  | .subCons _ ty rest => noBareArrayRef ty && noBareArrayRef rest

/-- The descriptors one `eachPath` walk appends for a given target model, in
walk order (for schemas without bare-array references). -/
def emitRefs (modelName : String) (path : List String) :
    SchemaTy → String → List RefDesc
  | .prim opts, tgt =>
      if opts.ref = some tgt then [{ modelName := modelName, path := path }] else []
  | .arrayPrim elem topRef, tgt =>
      match elem.ref with
      | some _ => []
      | none =>
          match topRef with
          | some t =>
              if t = tgt then [{ modelName := modelName, path := path }] else []
          | none => []
  | .docArray sub, tgt => emitRefs modelName path sub tgt
  | .singleNested sub, tgt => emitRefs modelName path sub tgt
  | .subNil, _ => []
  | .subCons name ty rest, tgt =>
      emitRefs modelName (path ++ [name]) ty tgt ++ emitRefs modelName path rest tgt

/-- Two referencing models for one target: `House` is referenced by
`RoomA.house` (Block at call time) and by `RoomB.house` (Nullify at call
time), in this registry order. -/
def envTwo : Env :=
  { reg := [("House", [{ modelName := "RoomA", path := ["house"] },
                       { modelName := "RoomB", path := ["house"] }]),
            ("RoomA", []), ("RoomB", [])]
    schemas := [("House", houseSchema), ("RoomA", roomSchema),
                ("RoomB", roomSchema)]
    flags := [(("RoomA", ["house"]),
                { required := true, cascade := false, optionsCascade := false }),
              (("RoomB", ["house"]),
                { required := false, cascade := false, optionsCascade := false })] }

/-- House 1 referenced by RoomA 2 and RoomB 3. -/
def stTwo : Store :=
  [("House", [{ _id := 1, _deleted := false, body := .objNil }]),
   ("RoomA", [{ _id := 2, _deleted := false,
                body := .objCons "house" (.vid 1) .objNil }]),
   ("RoomB", [{ _id := 3, _deleted := false,
                body := .objCons "house" (.vid 1) .objNil }])]

/-- A registry holding a descriptor for target `House` registered by a
different model, prior to compiling a bare-array reference to `House`. -/
def regPrior : Registry :=
  [("House", [{ modelName := "Other", path := ["x"] }])]


/-! ## Bridge lemmas and sanity checks -/

theorem run_onDel_eq (env : Env) (fuel : Nat) (modelName : String)
    (documentId : Nat) (opts : SoftOpts) (st : Store) :
    run env (fuel + 1) (.onDel modelName documentId opts) st =
      (regGetD env.reg modelName).foldl
        (descStep env fuel modelName documentId opts) (st, none) := rfl

/-- Modelled from the spec: the soft-delete capability (mongoose-soft-deleting,
an external collaborator — §6 of the spec): `doc.softDelete(target)` flips the
document's `_deleted` flag in memory, invokes the pre-soft-delete hook — which
the plugin registers as `onDelete(doc._id, {softDelete: true, _deleted})`,
rolling the in-memory flag back to `false` and rethrowing when a
`RefConstraintError` is raised (src/index.js lines 185-199) — and commits the
flipped document only on success.  Returns the store, the caller's in-memory
document after the call, and the outcome. -/
theorem run_softDel_eq (env : Env) (fuel : Nat) (modelName : String)
    (documentId : Nat) (target : Bool) (st : Store) :
    run env (fuel + 1) (.softDel modelName documentId target) st =
      ((softDeleteDoc env fuel modelName documentId target st).1,
        (softDeleteDoc env fuel modelName documentId target st).2.2) := by
  show (match (storeGet st modelName).find? (fun d => d._id == documentId) with
    | none => (st, none)
    | some doc =>
        afterSoftHook modelName doc target
          (run env fuel (.onDel modelName documentId
            { softDelete := true, _deleted := target }) st)) = _
  unfold softDeleteDoc
  cases h : (storeGet st modelName).find? (fun d => d._id == documentId) with
  | none => simp
  | some doc0 =>
      cases hr : run env fuel (.onDel modelName documentId
          { softDelete := true, _deleted := target }) st with
      | mk st1 e =>
          cases e with
          | none => simp [afterSoftHook]
          | some err => cases err <;> simp [afterSoftHook]

example :
    plugin "Room" roomSchema (plugin "House" houseSchema []) =
      [("House", [{ modelName := "Room", path := ["house"] }]), ("Room", [])] := by
  decide


example :
    getUpdateQueryObjectFor roomSchema ["house"] 7 =
      { op := "$set", updatePath := ["house"], value := none, arrayFilters := none } := by
  decide

example :
    getUpdateQueryObjectFor roomArraySchema ["houses"] 7 =
      { op := "$pull", updatePath := ["houses"], value := some 7,
        arrayFilters := none } := by
  decide

example :
    getUpdateQueryObjectFor roomArrayObjectsSchema ["houses", "house"] 7 =
      { op := "$set", updatePath := ["houses", "$[j]", "house"], value := none,
        arrayFilters := some (["j", "house"], 7) } := by
  decide

example :
    getUpdateQueryObjectFor roomNestedArraysSchema
        ["houses", "house", "houses", "house"] 7 =
      { op := "$set",
        updatePath := ["houses", "$[]", "house", "houses", "$[j]", "house"],
        value := none, arrayFilters := some (["j", "house"], 7) } := by
  decide

example :
    applyInstr (getUpdateQueryObjectFor roomArrayObjectsSchema ["houses", "house"] 1) 1
        (.objCons "houses"
          (.arrCons (.objCons "house" (.vid 1) .objNil)
            (.arrCons (.objCons "house" (.vid 2) .objNil) .arrNil))
          .objNil) =
      (.objCons "houses"
        (.arrCons (.objCons "house" .vnull .objNil)
          (.arrCons (.objCons "house" (.vid 2) .objNil) .arrNil))
        .objNil) := by
  decide

example :
    run envBlock 3 (.delOne "House" (some 1) none) st0 =
      (st0, some (.refConstraint
        { modelName := "House", modelRef := "Room", pathRef := ["house"],
          whoIsBlocking := 2 })) := by
  decide

example :
    run envNullify 3 (.delOne "House" (some 1) none) st0 =
      ([("House", []),
        ("Room", [{ _id := 2, _deleted := false,
                    body := .objCons "house" .vnull .objNil }])], none) := by
  decide

example :
    run envCascade 6 (.softDel "House" 1 false) stSoft =
      ([("House", [{ _id := 1, _deleted := false, body := .objNil }]),
        ("Room", [{ _id := 2, _deleted := false,
                    body := .objCons "house" (.vid 1) .objNil },
                  { _id := 3, _deleted := false,
                    body := .objCons "house" (.vid 1) .objNil }])], none) := by
  decide


/-! ## Helper lemmas -/

theorem regGet_regSet (r : Registry) (k k' : String) (v : List RefDesc) :
    regGet (regSet r k v) k' = if k = k' then some v else regGet r k' := by
  induction r with
  | nil => by_cases h : k = k' <;> simp [regSet, regGet, h]
  | cons hd tl ih =>
      obtain ⟨k0, v0⟩ := hd
      by_cases h0 : k0 = k
      · subst h0
        by_cases h : k0 = k' <;> simp [regSet, regGet, h]
      · by_cases h : k0 = k'
        · subst h
          have hk : ¬(k = k0) := fun hh => h0 hh.symm
          simp [regSet, regGet, h0, hk]
        · simp [regSet, regGet, h0, h, ih]

theorem regGetD_regSet (r : Registry) (k k' : String) (v : List RefDesc) :
    regGetD (regSet r k v) k' = if k = k' then v else regGetD r k' := by
  unfold regGetD
  rw [regGet_regSet]
  by_cases h : k = k' <;> simp [h]

theorem storeGet_storeSet (st : Store) (m m' : String) (v : List Doc) :
    storeGet (storeSet st m v) m' = if m = m' then v else storeGet st m' := by
  induction st with
  | nil => by_cases h : m = m' <;> simp [storeSet, storeGet, h]
  | cons hd tl ih =>
      obtain ⟨k0, v0⟩ := hd
      by_cases h0 : k0 = m
      · subst h0
        by_cases h : k0 = m' <;> simp [storeSet, storeGet, h]
      · by_cases h : k0 = m'
        · subst h
          have hk : ¬(m = k0) := fun hh => h0 hh.symm
          simp [storeSet, storeGet, h0, hk]
        · simp [storeSet, storeGet, h0, h, ih]

theorem eachPath_regGetD (modelName : String) :
    ∀ (s : SchemaTy) (path : List String) (r : Registry) (tgt : String),
      noBareArrayRef s = true →
      regGetD (eachPath modelName path s r) tgt =
        regGetD r tgt ++ emitRefs modelName path s tgt
  | .prim opts, path, r, tgt, _ => by
      cases hr : opts.ref with
      | none => simp [eachPath, emitRefs, hr]
      | some t =>
          by_cases ht : t = tgt
          · subst ht
            simp [eachPath, emitRefs, hr, regGetD_regSet]
          · simp [eachPath, emitRefs, hr, regGetD_regSet, ht]
  | .arrayPrim elem topRef, path, r, tgt, h => by
      have he : elem.ref = none := by
        simpa [noBareArrayRef, Option.isNone_iff_eq_none] using h
      cases htr : topRef with
      | none => simp [eachPath, emitRefs, he, htr]
      | some t =>
          by_cases ht : t = tgt
          · subst ht
            simp [eachPath, emitRefs, he, htr, regGetD_regSet]
          · simp [eachPath, emitRefs, he, htr, regGetD_regSet, ht]
  | .docArray sub, path, r, tgt, h => by
      have hs : noBareArrayRef sub = true := by simpa [noBareArrayRef] using h
      simpa [eachPath, emitRefs] using
        eachPath_regGetD modelName sub path r tgt hs
  | .singleNested sub, path, r, tgt, h => by
      have hs : noBareArrayRef sub = true := by simpa [noBareArrayRef] using h
      simpa [eachPath, emitRefs] using
        eachPath_regGetD modelName sub path r tgt hs
  | .subNil, path, r, tgt, _ => by simp [eachPath, emitRefs]
  | .subCons name ty rest, path, r, tgt, h => by
      have h1 : noBareArrayRef ty = true := by
        have := h
        simp [noBareArrayRef, Bool.and_eq_true] at this
        exact this.1
      have h2 : noBareArrayRef rest = true := by
        have := h
        simp [noBareArrayRef, Bool.and_eq_true] at this
        exact this.2
      show regGetD
          (eachPath modelName path rest (eachPath modelName (path ++ [name]) ty r)) tgt = _
      rw [eachPath_regGetD modelName rest path _ tgt h2,
        eachPath_regGetD modelName ty (path ++ [name]) r tgt h1]
      simp [emitRefs]

theorem plugin_regGetD (modelName : String) (s : SchemaTy) (r : Registry)
    (tgt : String) (h : noBareArrayRef s = true) :
    regGetD (plugin modelName s r) tgt =
      regGetD r tgt ++ emitRefs modelName [] s tgt := by
  unfold plugin
  cases hm : regGet r modelName with
  | some v => exact eachPath_regGetD modelName s [] r tgt h
  | none =>
      rw [eachPath_regGetD modelName s [] _ tgt h]
      by_cases ht : modelName = tgt
      · subst ht
        rw [regGetD_regSet]
        simp [regGetD, hm]
      · rw [regGetD_regSet]
        simp [ht]

theorem foldl_descStep_error (env : Env) (fuel : Nat) (m : String) (i : Nat)
    (opts : SoftOpts) (st : Store) (e : EngineErr) :
    ∀ ds : List RefDesc,
      ds.foldl (descStep env fuel m i opts) (st, some e) = (st, some e)
  | [] => rfl
  | d :: ds => by
      show ds.foldl (descStep env fuel m i opts)
        (descStep env fuel m i opts (st, some e) d) = (st, some e)
      exact foldl_descStep_error env fuel m i opts st e ds

theorem foldl_append_flatMap {α β : Type} (f : α → List β) :
    ∀ (l : List α) (a : List β),
      l.foldl (fun s x => s ++ f x) a = a ++ l.flatMap f
  | [], a => by simp
  | x :: l, a => by
      simp only [List.foldl_cons, List.flatMap_cons]
      rw [foldl_append_flatMap f l (a ++ f x)]
      simp

theorem foldl_filter_map {α β : Type} (p : α → Prop) [DecidablePred p] (g : α → β) :
    ∀ (l : List α) (a : List β),
      l.foldl (fun s x => if p x then s ++ [g x] else s) a =
        a ++ (l.filter (fun x => decide (p x))).map g
  | [], a => by simp
  | x :: l, a => by
      simp only [List.foldl_cons]
      by_cases h : p x
      · rw [if_pos h, foldl_filter_map p g l (a ++ [g x])]
        simp [List.filter_cons, h]
      · rw [if_neg h, foldl_filter_map p g l a]
        simp [List.filter_cons, h]

theorem foldl_lastIdx_none (p : Nat → Bool) :
    ∀ n : Nat,
      ((List.range n).foldl (fun acc i => if p i then some i else acc) none = none ↔
        ∀ j, j < n → p j = false)
  | 0 => by simp
  | n + 1 => by
      rw [List.range_succ, List.foldl_append]
      simp only [List.foldl_cons, List.foldl_nil]
      by_cases h : p n
      · rw [if_pos h]
        constructor
        · intro hc; exact absurd hc (by simp)
        · intro hall
          exact absurd (hall n (Nat.lt_succ_self n)) (by simp [h])
      · rw [if_neg h, foldl_lastIdx_none p n]
        constructor
        · intro hall j hj
          rcases Nat.lt_succ_iff_lt_or_eq.mp hj with hj' | hj'
          · exact hall j hj'
          · subst hj'; exact (Bool.not_eq_true _).mp h
        · intro hall j hj; exact hall j (Nat.lt_succ_of_lt hj)

theorem foldl_lastIdx_some (p : Nat → Bool) :
    ∀ n L : Nat,
      ((List.range n).foldl (fun acc i => if p i then some i else acc) none = some L ↔
        (L < n ∧ p L = true ∧ ∀ j, L < j → j < n → p j = false))
  | 0, L => by simp
  | n + 1, L => by
      rw [List.range_succ, List.foldl_append]
      simp only [List.foldl_cons, List.foldl_nil]
      by_cases h : p n
      · rw [if_pos h]
        simp only [Option.some.injEq]
        constructor
        · rintro rfl
          exact ⟨Nat.lt_succ_self n, h, fun j hj1 hj2 => absurd hj2 (by omega)⟩
        · rintro ⟨hL, hpL, hnone⟩
          by_contra hne
          have hLn : L < n := by
            rcases Nat.lt_succ_iff_lt_or_eq.mp hL with h' | h'
            · exact h'
            · exact absurd h'.symm hne
          exact absurd (hnone n hLn (Nat.lt_succ_self n)) (by simp [h])
      · rw [if_neg h, foldl_lastIdx_some p n L]
        constructor
        · rintro ⟨hL, hpL, hnone⟩
          refine ⟨Nat.lt_succ_of_lt hL, hpL, fun j hj1 hj2 => ?_⟩
          rcases Nat.lt_succ_iff_lt_or_eq.mp hj2 with hj' | hj'
          · exact hnone j hj1 hj'
          · subst hj'; exact (Bool.not_eq_true _).mp h
        · rintro ⟨hL, hpL, hnone⟩
          have hLn : L < n := by
            rcases Nat.lt_succ_iff_lt_or_eq.mp hL with h' | h'
            · exact h'
            · subst h'; exact absurd hpL (by simp [h])
          exact ⟨hLn, hpL, fun j hj1 hj2 => hnone j hj1 (Nat.lt_succ_of_lt hj2)⟩

theorem map_getD_range' :
    ∀ (l : List String) (k : Nat),
      (List.range' k (l.length - k)).map (fun i => l.getD i "") = l.drop k
  | [], k => by simp
  | a :: t, 0 => by
      have h1 : (a :: t).length - 0 = t.length + 1 := by simp
      rw [h1, List.range'_succ]
      simp only [List.map_cons, List.getD_cons_zero, List.drop_zero]
      congr 1
      have h2 : List.range' (0 + 1) t.length 1 =
          (List.range' 0 t.length 1).map (fun x => 1 + x) :=
        (List.map_add_range' 1 0 t.length 1).symm
      have h2' : List.range' 1 t.length 1 =
          (List.range' 0 t.length 1).map (fun x => 1 + x) := by
        rw [Nat.zero_add] at h2
        exact h2
      rw [h2', List.map_map]
      have h3 : ((fun i => (a :: t).getD i "") ∘ (fun x => 1 + x)) =
          (fun i => t.getD i "") := by
        funext i
        simp [Nat.add_comm 1 i, List.getD_cons_succ]
      rw [h3]
      have := map_getD_range' t 0
      simpa using this
  | a :: t, k + 1 => by
      have h1 : (a :: t).length - (k + 1) = t.length - k := by
        simp [Nat.succ_sub_succ]
      rw [h1, List.drop_succ_cons]
      have h2 : List.range' (k + 1) (t.length - k) 1 =
          (List.range' k (t.length - k) 1).map (fun x => 1 + x) := by
        have hh := (List.map_add_range' 1 k (t.length - k) 1).symm
        rw [Nat.add_comm 1 k] at hh
        exact hh
      rw [h2, List.map_map]
      have h3 : ((fun i => (a :: t).getD i "") ∘ (fun x => 1 + x)) =
          (fun i => t.getD i "") := by
        funext i
        simp [Nat.add_comm 1 i, List.getD_cons_succ]
      rw [h3]
      exact map_getD_range' t k

theorem flatMap_singleton_eq_map {α β : Type} (g : α → β) :
    ∀ l : List α, l.flatMap (fun x => [g x]) = l.map g
  | [] => rfl
  | x :: l => by
      simp [flatMap_singleton_eq_map g l]

theorem flatMap_congr_mem {α β : Type} :
    ∀ (l : List α) (f g : α → List β),
      (∀ a ∈ l, f a = g a) → l.flatMap f = l.flatMap g
  | [], _, _, _ => rfl
  | x :: l, f, g, h => by
      simp only [List.flatMap_cons]
      rw [h x (by simp), flatMap_congr_mem l f g (fun a ha => h a (by simp [ha]))]

theorem filter_lt_range (L : Nat) :
    ∀ n : Nat,
      (List.range n).filter (fun i => decide (L < i)) =
        List.range' (L + 1) (n - (L + 1))
  | 0 => by simp
  | n + 1 => by
      rw [List.range_succ, List.filter_append, filter_lt_range L n]
      by_cases h : L < n
      · have h2 : n + 1 - (L + 1) = (n - (L + 1)) + 1 := by omega
        rw [h2, List.range'_1_concat]
        have h3 : L + 1 + (n - (L + 1)) = n := by omega
        simp [h, h3]
      · have h0 : n - (L + 1) = 0 := by omega
        have h1 : n + 1 - (L + 1) = 0 := by omega
        simp [h, h0, h1]

theorem findOneDoc_isSome_iff (st : Store) (m : String) (p : List String) (i : Nat) :
    (findOneDoc st m p i).isSome = true ↔
      ∃ doc ∈ storeGet st m, vmatch doc.body p i = true := by
  unfold findOneDoc
  exact List.find?_isSome

theorem onDeleteBlock_char (modelName modelRef : String) (pathRef : List String)
    (documentId : Nat) (opts : SoftOpts) (st : Store) :
    onDeleteBlock modelName modelRef pathRef documentId opts st =
      if opts.softDelete = false ∨ opts._deleted = true then
        (findOneDoc st modelRef pathRef documentId).map (fun doc =>
          { modelName := modelName, modelRef := modelRef, pathRef := pathRef,
            whoIsBlocking := doc._id })
      else none := by
  unfold onDeleteBlock
  cases hf : findOneDoc st modelRef pathRef documentId with
  | none =>
      by_cases h1 : opts.softDelete <;> by_cases h2 : opts._deleted <;>
        simp [h1, h2, hf]
  | some doc =>
      by_cases h1 : opts.softDelete <;> by_cases h2 : opts._deleted <;>
        simp [h1, h2, hf]

theorem updateLastDA_some_iff (schema : SchemaTy) (path : List String) (L : Nat) :
    updateLastDA schema path = some L ↔
      (L < path.length - 1 ∧ (updateInfo schema path).getD L false = true ∧
        ∀ j, L < j → j < path.length - 1 →
          (updateInfo schema path).getD j false = false) :=
  foldl_lastIdx_some (fun i => (updateInfo schema path).getD i false)
    (path.length - 1) L

theorem updateLastDA_none_iff (schema : SchemaTy) (path : List String) :
    updateLastDA schema path = none ↔
      ∀ j, j < path.length - 1 → (updateInfo schema path).getD j false = false :=
  foldl_lastIdx_none (fun i => (updateInfo schema path).getD i false)
    (path.length - 1)

theorem updateSegs_eq_flatMap (schema : SchemaTy) (path : List String) (L : Nat)
    (hL : updateLastDA schema path = some L) :
    updateSegs schema path =
      (List.range (path.length - 1)).flatMap (fun i =>
        [path.getD i ""] ++
          (if (updateInfo schema path).getD i false then
            [if L = i then "$[j]" else "$[]"]
          else []))
      ++ [path.getD (path.length - 1) ""] := by
  unfold updateSegs
  simp only [hL, Option.some.injEq, List.append_assoc]
  rw [foldl_append_flatMap (fun i =>
    [path.getD i ""] ++
      (if (updateInfo schema path).getD i false then
        [if L = i then "$[j]" else "$[]"]
      else [])) (List.range (path.length - 1)) []]
  simp

theorem updateCondSegs_eq_drop (schema : SchemaTy) (path : List String) (L : Nat)
    (hne : path ≠ []) (hL : updateLastDA schema path = some L)
    (hLlt : L < path.length - 1) :
    updateCondSegs schema path = path.drop (L + 1) := by
  unfold updateCondSegs
  simp only [hL]
  rw [foldl_filter_map (fun i => L < i) (fun i => path.getD i "")
    (List.range (path.length - 1)) []]
  rw [filter_lt_range]
  rw [← map_getD_range' path (L + 1)]
  have hpos : 1 ≤ path.length := List.length_pos.mpr hne
  have hlen : path.length - (L + 1) = ((path.length - 1) - (L + 1)) + 1 := by omega
  rw [hlen, List.range'_1_concat]
  have hlast : L + 1 + ((path.length - 1) - (L + 1)) = path.length - 1 := by omega
  simp [Nat.one_mul, hlast]

theorem updateSegs_no_array (schema : SchemaTy) (path : List String)
    (hne : path ≠ [])
    (hno : ∀ i, i < path.length - 1 → (updateInfo schema path).getD i false = false) :
    updateSegs schema path = path := by
  unfold updateSegs
  simp only [List.append_assoc]
  rw [foldl_append_flatMap (fun i =>
    [path.getD i ""] ++
      (if (updateInfo schema path).getD i false then
        [if updateLastDA schema path = some i then "$[j]" else "$[]"]
      else [])) (List.range (path.length - 1)) []]
  rw [flatMap_congr_mem (List.range (path.length - 1)) _ (fun i => [path.getD i ""])
    (by
      intro i hi
      rw [List.mem_range] at hi
      rw [hno i hi]
      simp)]
  have hpos : 1 ≤ path.length := List.length_pos.mpr hne
  rw [flatMap_singleton_eq_map (fun i => path.getD i "") (List.range (path.length - 1)),
    List.range_eq_range']
  have hdrop := map_getD_range' path 0
  have hlen : path.length - 0 = (path.length - 1) + 1 := by omega
  rw [hlen, List.range'_1_concat] at hdrop
  simp only [List.map_append, List.map_cons, List.map_nil, List.drop_zero,
    Nat.zero_add, Nat.one_mul] at hdrop
  simpa using hdrop


/-! ## The claims -/

/-- C1: for every descriptor whose policy reads as Block (required and not
cascade) at call time, the descriptor's evaluation inside `onDelete` is
exactly the `onDeleteBlock` evaluation with the store untouched; it raises
`RefConstraintError` iff the deletion is a hard delete or a soft-delete
transitioning into the deleted state, and at least one document matches the
`getFindQueryObjectFor` selector for the descriptor; it is never raised on a
soft-restore; and the error carries the blocking source model, the path, and
the blocking (first matching) document's id. -/
theorem c1_block_iff (env : Env) (fuel : Nat) (modelName : String) (d : RefDesc)
    (documentId : Nat) (opts : SoftOpts) (st : Store)
    (hreq : (flagsAt env d).required = true)
    (hnc : ((flagsAt env d).cascade || (flagsAt env d).optionsCascade) = false) :
    descStep env fuel modelName documentId opts (st, none) d =
      (st, (onDeleteBlock modelName d.modelName d.path documentId opts st).map
        EngineErr.refConstraint) ∧
    ((onDeleteBlock modelName d.modelName d.path documentId opts st).isSome = true ↔
      ((opts.softDelete = false ∨ opts._deleted = true) ∧
        ∃ doc ∈ storeGet st d.modelName,
          vmatch doc.body (getFindQueryObjectFor d.path documentId).1
            (getFindQueryObjectFor d.path documentId).2 = true)) ∧
    (opts.softDelete = true → opts._deleted = false →
      onDeleteBlock modelName d.modelName d.path documentId opts st = none) ∧
    (∀ e, onDeleteBlock modelName d.modelName d.path documentId opts st = some e →
      e.modelName = modelName ∧ e.modelRef = d.modelName ∧ e.pathRef = d.path ∧
      ∃ doc, findOneDoc st d.modelName d.path documentId = some doc ∧
        vmatch doc.body d.path documentId = true ∧ e.whoIsBlocking = doc._id) := by
  refine ⟨?_, ?_, ?_, ?_⟩
  · simp only [descStep, hreq, hnc, if_true, Bool.false_eq_true, if_false]
    cases hb : onDeleteBlock modelName d.modelName d.path documentId opts st <;>
      simp [hb]
  · rw [onDeleteBlock_char]
    by_cases hcond : opts.softDelete = false ∨ opts._deleted = true
    · rw [if_pos hcond]
      have hmap : ∀ x : Option Doc, (x.map (fun doc =>
          ({ modelName := modelName, modelRef := d.modelName, pathRef := d.path,
             whoIsBlocking := doc._id } : RefConstraintError))).isSome = x.isSome := by
        intro x; cases x <;> rfl
      rw [hmap, findOneDoc_isSome_iff]
      simp [hcond, getFindQueryObjectFor]
    · rw [if_neg hcond]
      simp only [Option.isSome_none, Bool.false_eq_true, false_iff]
      intro hc
      exact hcond hc.1
  · intro h1 h2
    rw [onDeleteBlock_char, if_neg (by simp [h1, h2])]
  · intro e he
    rw [onDeleteBlock_char] at he
    by_cases hcond : opts.softDelete = false ∨ opts._deleted = true
    · rw [if_pos hcond] at he
      rcases Option.map_eq_some'.mp he with ⟨doc, hdoc, hmk⟩
      subst hmk
      have hdoc2 : List.find? (fun dd => vmatch dd.body d.path documentId)
          (storeGet st d.modelName) = some doc := hdoc
      have hp := List.find?_some hdoc2
      exact ⟨rfl, rfl, rfl, doc, hdoc, hp, rfl⟩
    · rw [if_neg hcond] at he
      exact absurd he (by simp)

/-- C1 witness: in the House/Room scenario with `Room.house` required and not
cascading, the Block evaluation is reached and raises. -/
theorem c1_block_iff_witness :
    descStep envBlock 1 "House" 1 {} (st0, none)
        { modelName := "Room", path := ["house"] } =
      (st0, (onDeleteBlock "House" "Room" ["house"] 1 {} st0).map
        EngineErr.refConstraint) ∧
    onDeleteBlock "House" "Room" ["house"] 1 {} st0 =
      some { modelName := "House", modelRef := "Room", pathRef := ["house"],
             whoIsBlocking := 2 } :=
  ⟨(c1_block_iff envBlock 1 "House" { modelName := "Room", path := ["house"] }
      1 {} st0 (by decide) (by decide)).1,
   by decide⟩

/-- C2: for every descriptor whose policy reads as Cascade (required and
cascade) at call time, the descriptor's evaluation inside `onDelete` is
`onDeleteCascade`, which finds all documents matching the selector and, for
each one (in find order), re-invokes that document's own deletion entry
point — `deleteOne` for a hard delete, or `softDelete` with the same target
state as the parent — so the child's own references are policy-checked
recursively; in particular restoring a soft-deleted parent restores all
Cascade children to the live state (the House/Room instance). -/
theorem c2_cascade_entry (env : Env) (fuel : Nat) (modelName : String)
    (d : RefDesc) (documentId : Nat) (opts : SoftOpts) (st : Store)
    (hreq : (flagsAt env d).required = true)
    (hc : ((flagsAt env d).cascade || (flagsAt env d).optionsCascade) = true) :
    descStep env fuel modelName documentId opts (st, none) d =
      run env fuel (.cascade d.modelName d.path documentId opts) st ∧
    run env (fuel + 1) (.cascade d.modelName d.path documentId opts) st =
      (findDocs st d.modelName d.path documentId).foldl (fun acc doc =>
        match acc with
        | (st1, some e) => (st1, some e)
        | (st1, none) =>
          if opts.softDelete then
            run env fuel (.softDel d.modelName doc._id opts._deleted) st1
          else
            run env fuel (.delOne d.modelName (some doc._id) none) st1)
        (st, none) ∧
    run envCascade 6 (.softDel "House" 1 false) stSoft =
      ([("House", [{ _id := 1, _deleted := false, body := .objNil }]),
        ("Room", [{ _id := 2, _deleted := false,
                    body := .objCons "house" (.vid 1) .objNil },
                  { _id := 3, _deleted := false,
                    body := .objCons "house" (.vid 1) .objNil }])], none) := by
  refine ⟨?_, rfl, by decide⟩
  simp only [descStep, hreq, hc, if_true]

/-- C2 witness: the cascade dispatch at the concrete House/Room environment
with `Room.house` required and cascading. -/
theorem c2_cascade_entry_witness :
    descStep envCascade 1 "House" 1 {} (st0, none)
        { modelName := "Room", path := ["house"] } =
      run envCascade 1 (.cascade "Room" ["house"] 1 {}) st0 :=
  (c2_cascade_entry envCascade 1 "House" { modelName := "Room", path := ["house"] }
    1 {} st0 (by decide) (by decide)).1

/-- C5: for every descriptor whose policy reads as Nullify (not required) at
call time, the descriptor's evaluation inside `onDelete` is
`onDeleteSetNull`; a hard deletion applies the built mutation to every
document matching the selector in one bulk `updateMany` (other models'
collections untouched), and a soft-delete transition in either direction
performs no store mutation at all. -/
theorem c5_nullify_bulk (env : Env) (fuel : Nat) (modelName : String)
    (d : RefDesc) (documentId : Nat) (opts : SoftOpts) (st : Store)
    (hnr : (flagsAt env d).required = false) :
    descStep env fuel modelName documentId opts (st, none) d =
      (onDeleteSetNull env d.modelName d.path documentId opts st, none) ∧
    (opts.softDelete = true →
      onDeleteSetNull env d.modelName d.path documentId opts st = st) ∧
    (opts.softDelete = false →
      onDeleteSetNull env d.modelName d.path documentId opts st =
        updateMany st d.modelName d.path documentId
          (getUpdateQueryObjectFor (schemasGet env.schemas d.modelName)
            d.path documentId) ∧
      storeGet (onDeleteSetNull env d.modelName d.path documentId opts st)
          d.modelName =
        (storeGet st d.modelName).map (fun doc =>
          if vmatch doc.body d.path documentId then
            { doc with
                body := applyInstr
                  (getUpdateQueryObjectFor (schemasGet env.schemas d.modelName)
                    d.path documentId) documentId doc.body }
          else doc) ∧
      (∀ m2, m2 ≠ d.modelName →
        storeGet (onDeleteSetNull env d.modelName d.path documentId opts st) m2 =
          storeGet st m2)) := by
  refine ⟨?_, ?_, ?_⟩
  · simp only [descStep, hnr, Bool.false_eq_true, if_false]
  · intro hs
    unfold onDeleteSetNull
    simp [hs]
  · intro hs
    refine ⟨by unfold onDeleteSetNull; simp [hs], ?_, ?_⟩
    · unfold onDeleteSetNull updateMany
      simp [hs, storeGet_storeSet]
    · intro m2 hm2
      unfold onDeleteSetNull updateMany
      simp only [hs, Bool.not_false, if_true]
      rw [storeGet_storeSet]
      simp
      intro hc
      exact absurd hc.symm hm2

/-- C5 witness: the nullify dispatch and the bulk update at the concrete
House/Room environment with `Room.house` not required. -/
theorem c5_nullify_bulk_witness :
    descStep envNullify 1 "House" 1 {} (st0, none)
        { modelName := "Room", path := ["house"] } =
      (onDeleteSetNull envNullify "Room" ["house"] 1 {} st0, none) ∧
    onDeleteSetNull envNullify "Room" ["house"] 1
        { softDelete := true, _deleted := true } st0 = st0 :=
  ⟨(c5_nullify_bulk envNullify 1 "House" { modelName := "Room", path := ["house"] }
      1 {} st0 (by decide)).1,
   (c5_nullify_bulk envNullify 1 "House" { modelName := "Room", path := ["house"] }
      1 { softDelete := true, _deleted := true } st0 (by decide)).2.1 rfl⟩

/-- C10: in the `remove`/`deleteOne` pre-hooks (their bodies are identical),
when neither the document's `_id` nor the query conditions' `_id` is present,
`onDelete` is never invoked: no Block check can raise, no Cascade and no
Nullify mutation runs for any inbound reference, whatever the registry and
store hold, and the delete itself proceeds against the store. -/
theorem c10_no_id_skips_hook (env : Env) (fuel : Nat) (modelName : String)
    (st : Store) :
    run env (fuel + 1) (.delOne modelName none none) st =
      (storeSet st modelName ((storeGet st modelName).drop 1), none) := rfl

/-- C6: within one `onDelete` call the descriptors are evaluated strictly in
sequence; when the descriptor evaluation `d` raises, the error propagates
immediately: the call's result is the state produced up to and including `d`,
so no Nullify or Cascade side effect from any not-yet-evaluated descriptor
occurs; and on a blocked soft delete the already-flipped `_deleted` flag of
the caller's document is rolled back to `false` before the error surfaces. -/
theorem c6_block_atomicity (env : Env) (fuel : Nat) (modelName : String)
    (documentId : Nat) (opts : SoftOpts) (st st1 st2 : Store)
    (ds1 ds2 : List RefDesc) (d : RefDesc) (e : EngineErr)
    (hreg : regGetD env.reg modelName = ds1 ++ d :: ds2)
    (h1 : ds1.foldl (descStep env fuel modelName documentId opts) (st, none) =
      (st1, none))
    (h2 : descStep env fuel modelName documentId opts (st1, none) d =
      (st2, some e)) :
    run env (fuel + 1) (.onDel modelName documentId opts) st = (st2, some e) ∧
    (∀ (m2 : String) (i2 : Nat) (target : Bool) (stIn stOut : Store)
        (docOut : Doc) (e2 : RefConstraintError),
      softDeleteDoc env fuel m2 i2 target stIn =
        (stOut, some docOut, some (.refConstraint e2)) →
      docOut._deleted = false) := by
  constructor
  · rw [run_onDel_eq, hreg, List.foldl_append, h1, List.foldl_cons, h2]
    exact foldl_descStep_error env fuel modelName documentId opts st2 e ds2
  · intro m2 i2 target stIn stOut docOut e2 hsd
    unfold softDeleteDoc at hsd
    cases hf : (storeGet stIn m2).find? (fun dd => dd._id == i2) with
    | none =>
        rw [hf] at hsd
        simp at hsd
    | some doc0 =>
        rw [hf] at hsd
        cases hr : run env fuel (.onDel m2 i2
            { softDelete := true, _deleted := target }) stIn with
        | mk str er =>
            rw [hr] at hsd
            cases er with
            | none => simp at hsd
            | some err =>
                cases err with
                | outOfFuel => simp at hsd
                | refConstraint e3 =>
                    simp only [Prod.mk.injEq, Option.some.injEq] at hsd
                    rw [← hsd.2.1]
    

/-- C6 witness: House is referenced by RoomA (Block) then RoomB (Nullify); the
Block on the first descriptor surfaces immediately and RoomB's reference is
left untouched (the final store is the initial one). -/
theorem c6_block_atomicity_witness :
    regGetD envTwo.reg "House" =
      [{ modelName := "RoomA", path := ["house"] },
       { modelName := "RoomB", path := ["house"] }] ∧
    run envTwo 2 (.onDel "House" 1 {}) stTwo =
      (stTwo, some (.refConstraint
        { modelName := "House", modelRef := "RoomA", pathRef := ["house"],
          whoIsBlocking := 2 })) :=
  ⟨by decide,
   (c6_block_atomicity envTwo 1 "House" 1 {} stTwo stTwo stTwo []
      [{ modelName := "RoomB", path := ["house"] }]
      { modelName := "RoomA", path := ["house"] }
      (.refConstraint
        { modelName := "House", modelRef := "RoomA", pathRef := ["house"],
          whoIsBlocking := 2 })
      (by decide) rfl (by decide)).1⟩

/-- C8: the Block/Cascade/Nullify decision for a descriptor is a function of
the `required`/`cascade` flags read from the live schema state at the moment
`onDelete` runs (the compiled descriptor carries no policy): not required
dispatches to `onDeleteSetNull`, required-and-cascading to `onDeleteCascade`,
required-only to `onDeleteBlock`; and toggling a flag between two deletion
calls changes the action taken by the second call without recompiling — with
the identical registry and schemas, deleting `H` blocks while `Room.house` is
required, and after re-declaring it not required the same deletion succeeds
and nullifies `R.house`. -/
theorem c8_live_policy :
    (∀ (env : Env) (fuel : Nat) (modelName : String) (documentId : Nat)
        (opts : SoftOpts) (st : Store) (d : RefDesc),
      (flagsAt env d).required = false →
        descStep env fuel modelName documentId opts (st, none) d =
          (onDeleteSetNull env d.modelName d.path documentId opts st, none)) ∧
    (∀ (env : Env) (fuel : Nat) (modelName : String) (documentId : Nat)
        (opts : SoftOpts) (st : Store) (d : RefDesc),
      (flagsAt env d).required = true →
      ((flagsAt env d).cascade || (flagsAt env d).optionsCascade) = false →
        descStep env fuel modelName documentId opts (st, none) d =
          (st, (onDeleteBlock modelName d.modelName d.path documentId opts st).map
            EngineErr.refConstraint)) ∧
    (∀ (env : Env) (fuel : Nat) (modelName : String) (documentId : Nat)
        (opts : SoftOpts) (st : Store) (d : RefDesc),
      (flagsAt env d).required = true →
      ((flagsAt env d).cascade || (flagsAt env d).optionsCascade) = true →
        descStep env fuel modelName documentId opts (st, none) d =
          run env fuel (.cascade d.modelName d.path documentId opts) st) ∧
    envNullify.reg = envBlock.reg ∧
    envNullify.schemas = envBlock.schemas ∧
    run envBlock 3 (.delOne "House" (some 1) none) st0 =
      (st0, some (.refConstraint
        { modelName := "House", modelRef := "Room", pathRef := ["house"],
          whoIsBlocking := 2 })) ∧
    run envNullify 3 (.delOne "House" (some 1) none) st0 =
      ([("House", []),
        ("Room", [{ _id := 2, _deleted := false,
                    body := .objCons "house" .vnull .objNil }])], none) := by
  refine ⟨?_, ?_, ?_, by decide, by decide, by decide, by decide⟩
  · intro env fuel modelName documentId opts st d hnr
    simp only [descStep, hnr, Bool.false_eq_true, if_false]
  · intro env fuel modelName documentId opts st d hreq hnc
    simp only [descStep, hreq, hnc, if_true, Bool.false_eq_true, if_false]
    cases hb : onDeleteBlock modelName d.modelName d.path documentId opts st <;>
      simp [hb]
  · intro env fuel modelName documentId opts st d hreq hc
    simp only [descStep, hreq, hc, if_true]

/-- C8 witness: the nullify dispatch applied at a concrete environment, on a
soft-delete call. -/
theorem c8_live_policy_witness :
    descStep envNullify 1 "House" 1 { softDelete := true, _deleted := true }
        (st0, none) { modelName := "Room", path := ["house"] } =
      (onDeleteSetNull envNullify "Room" ["house"] 1
        { softDelete := true, _deleted := true } st0, none) :=
  c8_live_policy.1 envNullify 1 "House" 1 { softDelete := true, _deleted := true }
    st0 { modelName := "Room", path := ["house"] } (by decide)

/-- C3: for every descriptor whose path contains at least one array segment
(a document-array prefix), the built mutation addresses each array segment
other than the last with the all-elements marker `$[]` and the last (the
terminal array, i.e. the greatest array index, with no array index after it)
with the single named filter marker `$[j]`, whose condition equates the
concatenation of the path segments strictly after the terminal array
(`path.drop (L+1)`, bound to the identifier `j`) with the referenced id; and
in a referencing document whose array holds two elements, only the element
matching the deleted identity is modified, the sibling element untouched. -/
theorem c3_array_markers (schema : SchemaTy) (path : List String)
    (referencedId : Nat) (hne : path ≠ [])
    (harr : ∃ i, i < path.length - 1 ∧
      (updateInfo schema path).getD i false = true) :
    (∃ L, updateLastDA schema path = some L ∧
      (updateInfo schema path).getD L false = true ∧
      (∀ j, L < j → j < path.length - 1 →
        (updateInfo schema path).getD j false = false) ∧
      (getUpdateQueryObjectFor schema path referencedId).updatePath =
        (List.range (path.length - 1)).flatMap (fun i =>
          [path.getD i ""] ++
            (if (updateInfo schema path).getD i false then
              [if L = i then "$[j]" else "$[]"]
            else []))
        ++ [path.getD (path.length - 1) ""] ∧
      (getUpdateQueryObjectFor schema path referencedId).arrayFilters =
        some ("j" :: path.drop (L + 1), referencedId)) ∧
    (∀ a b : Nat, a ≠ b →
      applyInstr (getUpdateQueryObjectFor roomArrayObjectsSchema
          ["houses", "house"] a) a
        (.objCons "houses"
          (.arrCons (.objCons "house" (.vid a) .objNil)
            (.arrCons (.objCons "house" (.vid b) .objNil) .arrNil)) .objNil) =
      .objCons "houses"
        (.arrCons (.objCons "house" .vnull .objNil)
          (.arrCons (.objCons "house" (.vid b) .objNil) .arrNil)) .objNil) := by
  constructor
  · cases hDA : updateLastDA schema path with
    | none =>
        obtain ⟨i, hi, htrue⟩ := harr
        have hfalse := (updateLastDA_none_iff schema path).mp hDA i hi
        rw [htrue] at hfalse
        exact absurd hfalse (by simp)
    | some L =>
        obtain ⟨hLlt, hLtrue, hnone⟩ := (updateLastDA_some_iff schema path L).mp hDA
        refine ⟨L, rfl, hLtrue, hnone, ?_, ?_⟩
        · show updateSegs schema path = _
          exact updateSegs_eq_flatMap schema path L hDA
        · show (match updateLastDA schema path with
            | some _ => some ("j" :: updateCondSegs schema path, referencedId)
            | none => none) = _
          rw [hDA, updateCondSegs_eq_drop schema path L hne hDA hLlt]
  · intro a b hab
    have hinstr : getUpdateQueryObjectFor roomArrayObjectsSchema
        ["houses", "house"] a =
      { op := "$set", updatePath := ["houses", "$[j]", "house"], value := none,
        arrayFilters := some (["j", "house"], a) } := rfl
    rw [hinstr]
    have h1 : (a == a) = true := by simp
    have h2 : (b == a) = false := by
      simp only [beq_eq_false_iff_ne]
      exact fun h => hab h.symm
    simp [applyInstr, applyU, vmatch, h1, h2]

/-- C3 witness: the nested-arrays test schema
(`houses: [{house: {houses: [{house: ref}]}}]`, path
`houses.house.houses.house`): the outer array gets `$[]`, the terminal array
gets `$[j]`, the filter binds `j.house`, and the two-element isolation holds
at ids 5 and 7. -/
theorem c3_array_markers_witness :
    (getUpdateQueryObjectFor roomNestedArraysSchema
        ["houses", "house", "houses", "house"] 5).updatePath =
      ["houses", "$[]", "house", "houses", "$[j]", "house"] ∧
    (getUpdateQueryObjectFor roomNestedArraysSchema
        ["houses", "house", "houses", "house"] 5).arrayFilters =
      some (["j", "house"], 5) ∧
    applyInstr (getUpdateQueryObjectFor roomArrayObjectsSchema
        ["houses", "house"] 5) 5
      (.objCons "houses"
        (.arrCons (.objCons "house" (.vid 5) .objNil)
          (.arrCons (.objCons "house" (.vid 7) .objNil) .arrNil)) .objNil) =
      .objCons "houses"
        (.arrCons (.objCons "house" .vnull .objNil)
          (.arrCons (.objCons "house" (.vid 7) .objNil) .arrNil)) .objNil := by
  obtain ⟨⟨L, hL, hLt, hLn, hup, hfil⟩, hiso⟩ :=
    c3_array_markers roomNestedArraysSchema ["houses", "house", "houses", "house"]
      5 (by decide) ⟨2, by decide, by decide⟩
  have hL2 : L = 2 := by
    have h2 : updateLastDA roomNestedArraysSchema
        ["houses", "house", "houses", "house"] = some 2 := by decide
    exact Option.some.inj (hL.symm.trans h2)
  subst hL2
  refine ⟨?_, ?_, hiso 5 7 (by decide)⟩
  · rw [hup]; decide
  · rw [hfil]; decide

/-- C4: the mutation operator is the array-element removal `$pull` of the
referenced id exactly when the terminal schema type is a `SchemaArray`
(an array of bare references, cardinality Array), and otherwise `$set` of the
field at the path to `null`; and when the path contains no array segment at
all (no document-array prefix and no bare-array terminal), the instruction is
a direct field set on the unmarked path with no array-filter options
attached. -/
theorem c4_pull_or_set (schema : SchemaTy) (path : List String)
    (referencedId : Nat) (hne : path ≠ []) :
    (isSchemaArray (schemaPath schema path) = true →
      (getUpdateQueryObjectFor schema path referencedId).op = "$pull" ∧
      (getUpdateQueryObjectFor schema path referencedId).value =
        some referencedId) ∧
    (isSchemaArray (schemaPath schema path) = false →
      (getUpdateQueryObjectFor schema path referencedId).op = "$set" ∧
      (getUpdateQueryObjectFor schema path referencedId).value = none) ∧
    ((∀ i, i < path.length - 1 →
        (updateInfo schema path).getD i false = false) →
      isSchemaArray (schemaPath schema path) = false →
      getUpdateQueryObjectFor schema path referencedId =
        { op := "$set", updatePath := path, value := none,
          arrayFilters := none }) := by
  refine ⟨?_, ?_, ?_⟩
  · intro h
    constructor <;> simp [getUpdateQueryObjectFor, h]
  · intro h
    constructor <;> simp [getUpdateQueryObjectFor, h]
  · intro hno hterm
    have hDA : updateLastDA schema path = none :=
      (updateLastDA_none_iff schema path).mpr hno
    unfold getUpdateQueryObjectFor
    rw [updateSegs_no_array schema path hne hno]
    simp [hterm, hDA]

/-- C4 witness: `$pull` on the array-of-bare-references schema
(`houses: [ref House]`), and the degenerate direct `$set` on the plain
`Room.house` schema. -/
theorem c4_pull_or_set_witness :
    ((getUpdateQueryObjectFor roomArraySchema ["houses"] 7).op = "$pull" ∧
      (getUpdateQueryObjectFor roomArraySchema ["houses"] 7).value = some 7) ∧
    getUpdateQueryObjectFor roomSchema ["house"] 7 =
      { op := "$set", updatePath := ["house"], value := none,
        arrayFilters := none } :=
  ⟨(c4_pull_or_set roomArraySchema ["houses"] 7 (by decide)).1 (by decide),
   (c4_pull_or_set roomSchema ["house"] 7 (by decide)).2.2
     (by decide) (by decide)⟩

/-- C7 counterexample: compiling `Room` (one plain reference to `House`)
twice does not yield the registry entry that one compilation yields — the
descriptor is appended a second time, so the claim's equality fails at this
input. -/
theorem c7_counterexample :
    regGetD (plugin "Room" roomSchema (plugin "Room" roomSchema [])) "House" ≠
      regGetD (plugin "Room" roomSchema []) "House" := by
  decide

/-- C7 (amended): compiling the same model with the same schema description
twice is not idempotent: for a schema with no array-of-bare-references field,
the registry entry for each target after the second compilation is the entry
the first compilation produced followed by a second copy of the schema's
descriptors for that target — descriptors with identity (sourceModel, path)
are duplicated, though none already registered (for this or any other target)
is lost. -/
theorem c7_twice_appends (modelName : String) (s : SchemaTy) (r : Registry)
    (tgt : String) (h : noBareArrayRef s = true) :
    regGetD (plugin modelName s (plugin modelName s r)) tgt =
      regGetD r tgt ++ emitRefs modelName [] s tgt ++
        emitRefs modelName [] s tgt := by
  rw [plugin_regGetD modelName s (plugin modelName s r) tgt h,
    plugin_regGetD modelName s r tgt h]

/-- C7 witness: the Room/House instance — after two compilations the entry
for `House` holds the `(Room, house)` descriptor twice. -/
theorem c7_twice_appends_witness :
    noBareArrayRef roomSchema = true ∧
    emitRefs "Room" [] roomSchema "House" =
      [{ modelName := "Room", path := ["house"] }] ∧
    regGetD (plugin "Room" roomSchema (plugin "Room" roomSchema [])) "House" =
      regGetD ([] : Registry) "House" ++ emitRefs "Room" [] roomSchema "House" ++
        emitRefs "Room" [] roomSchema "House" :=
  ⟨by decide, by decide,
   c7_twice_appends "Room" roomSchema [] "House" (by decide)⟩

/-- C9: when the compiler meets an array-of-bare-references field targeting
`tgt`, it builds the new registry entry for `tgt` from the entry keyed by the
array schema type's own top-level `ref` option (the JavaScript property key
`"undefined"` when that option is absent, normally an empty read) plus the
one new descriptor — not from the existing entry for `tgt` — so descriptors
previously registered under `tgt` by other models or paths are discarded at
that point rather than appended to. -/
theorem c9_bare_array_reset (r : Registry) (modelName : String)
    (path : List String) (elem : RefOpts) (topRef : Option String)
    (tgt : String) (helem : elem.ref = some tgt) :
    eachPath modelName path (.arrayPrim elem topRef) r =
      regSet r tgt (regGetD r (topRef.getD "undefined") ++
        [{ modelName := modelName, path := path }]) ∧
    (topRef = none → regGet r "undefined" = none →
      regGetD (eachPath modelName path (.arrayPrim elem topRef) r) tgt =
        [{ modelName := modelName, path := path }]) ∧
    (∀ dprev ∈ regGetD r tgt, topRef = none → regGet r "undefined" = none →
      dprev ≠ { modelName := modelName, path := path } →
      dprev ∉ regGetD (eachPath modelName path (.arrayPrim elem topRef) r) tgt) := by
  have hmain : eachPath modelName path (.arrayPrim elem topRef) r =
      regSet r tgt (regGetD r (topRef.getD "undefined") ++
        [{ modelName := modelName, path := path }]) := by
    simp [eachPath, helem]
  refine ⟨hmain, ?_, ?_⟩
  · intro htr hu
    rw [hmain, regGetD_regSet]
    simp [htr, regGetD, hu]
  · intro dprev hmem htr hu hneq
    rw [hmain, regGetD_regSet]
    simp only [if_pos rfl]
    subst htr
    simp only [Option.getD_none]
    unfold regGetD
    rw [hu]
    simp [hneq]

/-- C9 witness: with a descriptor for target `House` already registered by
model `Other`, compiling `Room { houses: [ref House] }` resets the `House`
entry to the single new descriptor and the prior descriptor is gone. -/
theorem c9_bare_array_reset_witness :
    ({ modelName := "Other", path := ["x"] } : RefDesc) ∈
      regGetD regPrior "House" ∧
    regGetD (eachPath "Room" ["houses"]
        (.arrayPrim { ref := some "House" } none) regPrior) "House" =
      [{ modelName := "Room", path := ["houses"] }] ∧
    ({ modelName := "Other", path := ["x"] } : RefDesc) ∉
      regGetD (eachPath "Room" ["houses"]
        (.arrayPrim { ref := some "House" } none) regPrior) "House" :=
  ⟨by decide,
   (c9_bare_array_reset regPrior "Room" ["houses"] { ref := some "House" }
      none "House" rfl).2.1 rfl (by decide),
   (c9_bare_array_reset regPrior "Room" ["houses"] { ref := some "House" }
      none "House" rfl).2.2 { modelName := "Other", path := ["x"] }
     (by decide) rfl (by decide) (by decide)⟩

